import Mathlib

/-!
Verification of the citation validation and evaluation pipeline of the
pro-se-hallucinations repository: the retrying HTTP wrapper, the opinion
chunker, the citation validator with its cache, the chunked
proposition-support fallback, and the per-complaint evaluation
orchestrator, shallowly embedded from src/courtlistener.py and
src/evaluation.py.
-/

/-! ## Retry policy (src/courtlistener.py, retry_with_backoff) -/

/-- Outcome of one invocation of the fallible zero-argument operation passed
to retry_with_backoff.  httpError models httpx.HTTPStatusError with the given
response status code; connectionFailure models the caught connection-level
failures (ConnectError, ReadTimeout, WriteTimeout, PoolTimeout,
TimeoutException).  Exceptions outside the caught classes propagate out of the
wrapper untouched and are not modeled. -/
inductive FnOutcome (α : Type) where
  | success (v : α)
  | httpError (status : Nat)
  | connectionFailure
deriving DecidableEq

/-- Final result of a retry_with_backoff run: the returned value, or the
re-raised failure. -/
inductive RetryResult (α : Type) where
  | ok (v : α)
  | raised (e : FnOutcome α)
deriving DecidableEq

/-- Observable trace of one retry_with_backoff run: final result, number of
invocations of the wrapped operation, and the sequence of time.sleep delays
(in seconds, as exact rationals). -/
structure RetryTrace (α : Type) where
  result : RetryResult α
  invocations : Nat
  sleeps : List ℚ
deriving DecidableEq

/-- The loop body of retry_with_backoff.  The impure operation fn is modeled
as the sequence of outcomes of its successive invocations (fn n is the
outcome of the invocation at loop index n).  attempt is the current loop
index, left the number of attempts remaining after this one
(max_retries - attempt).  Mirrors the source: status 429 doubles the delay
inside the min, 400 and >= 500 use the standard schedule, any other status
re-raises at once, connection-level failures use the standard schedule, and
the sleep is skipped after the final attempt. -/
def retryLoop {α : Type} (fn : Nat → FnOutcome α) (base_delay max_delay : ℚ) :
    Nat → Nat → RetryTrace α
  | attempt, left =>
    match fn attempt with
    | .success v => ⟨.ok v, 1, []⟩
    | .httpError s =>
      if s == 429 || s == 400 || decide (500 ≤ s) then
        let delay := if s == 429 then min (base_delay * 2 ^ attempt * 2) max_delay
                     else min (base_delay * 2 ^ attempt) max_delay
        match left with
        | 0 => ⟨.raised (.httpError s), 1, []⟩
        | left' + 1 =>
          let rest := retryLoop fn base_delay max_delay (attempt + 1) left'
          ⟨rest.result, rest.invocations + 1, delay :: rest.sleeps⟩
      else ⟨.raised (.httpError s), 1, []⟩
    | .connectionFailure =>
      let delay := min (base_delay * 2 ^ attempt) max_delay
      match left with
      | 0 => ⟨.raised .connectionFailure, 1, []⟩
      | left' + 1 =>
        let rest := retryLoop fn base_delay max_delay (attempt + 1) left'
        ⟨rest.result, rest.invocations + 1, delay :: rest.sleeps⟩

/-- Embedding of retry_with_backoff (src/courtlistener.py lines 19 to 72),
with the default parameters of the source. -/
def retry_with_backoff {α : Type} (fn : Nat → FnOutcome α) (max_retries : Nat := 3)
    (base_delay : ℚ := 1) (max_delay : ℚ := 30) : RetryTrace α :=
  retryLoop fn base_delay max_delay 0 max_retries

/-- An outcome is a failure of the class the source retries: status 429,
status 400, status at least 500, or a connection-level failure. -/
def isRetryable {α : Type} : FnOutcome α → Bool
  | .success _ => false
  | .httpError s => s == 429 || s == 400 || decide (500 ≤ s)
  | .connectionFailure => true

/-- The delay the backoff schedule assigns to a failing attempt:
min(base_delay * 2 ^ attempt, max_delay), with the product doubled inside the
min for status 429. -/
def backoffSchedule {α : Type} (base_delay max_delay : ℚ) (attempt : Nat) :
    FnOutcome α → ℚ
  | .httpError s =>
    if s == 429 then min (base_delay * 2 ^ attempt * 2) max_delay
    else min (base_delay * 2 ^ attempt) max_delay
  | _ => min (base_delay * 2 ^ attempt) max_delay

theorem retryLoop_unfold {α : Type} (fn : Nat → FnOutcome α)
    (base_delay max_delay : ℚ) (attempt left : Nat) :
    retryLoop fn base_delay max_delay attempt left =
      match fn attempt with
      | .success v => ⟨.ok v, 1, []⟩
      | .httpError s =>
        if s == 429 || s == 400 || decide (500 ≤ s) then
          let delay := if s == 429 then min (base_delay * 2 ^ attempt * 2) max_delay
                       else min (base_delay * 2 ^ attempt) max_delay
          match left with
          | 0 => ⟨.raised (.httpError s), 1, []⟩
          | left' + 1 =>
            let rest := retryLoop fn base_delay max_delay (attempt + 1) left'
            ⟨rest.result, rest.invocations + 1, delay :: rest.sleeps⟩
        else ⟨.raised (.httpError s), 1, []⟩
      | .connectionFailure =>
        let delay := min (base_delay * 2 ^ attempt) max_delay
        match left with
        | 0 => ⟨.raised .connectionFailure, 1, []⟩
        | left' + 1 =>
          let rest := retryLoop fn base_delay max_delay (attempt + 1) left'
          ⟨rest.result, rest.invocations + 1, delay :: rest.sleeps⟩ := by
  rw [retryLoop.eq_def]

theorem retryLoop_success {α : Type} (fn : Nat → FnOutcome α) (base maxd : ℚ) :
    ∀ (k a left : Nat) (v : α), k ≤ left →
      (∀ j, j < k → isRetryable (fn (a + j)) = true) →
      fn (a + k) = FnOutcome.success v →
      retryLoop fn base maxd a left =
        ⟨RetryResult.ok v, k + 1,
          (List.range k).map (fun j => backoffSchedule base maxd (a + j) (fn (a + j)))⟩ := by
  intro k
  induction k with
  | zero =>
    intro a left v _ _ hs
    rw [Nat.add_zero] at hs
    rw [retryLoop_unfold, hs]
    rfl
  | succ k ih =>
    intro a left v hk hret hs
    obtain ⟨left, rfl⟩ : ∃ m, left = m + 1 := ⟨left - 1, by omega⟩
    have h0 := hret 0 (Nat.succ_pos k)
    rw [Nat.add_zero] at h0
    have hs1 : fn (a + 1 + k) = FnOutcome.success v := by
      rw [show a + 1 + k = a + (k + 1) by omega]; exact hs
    have hret1 : ∀ j, j < k → isRetryable (fn (a + 1 + j)) = true := by
      intro j hj
      rw [show a + 1 + j = a + (j + 1) by omega]
      exact hret (j + 1) (by omega)
    have hrest := ih (a + 1) left v (by omega) hret1 hs1
    have hmap : (List.range (k + 1)).map
          (fun j => backoffSchedule base maxd (a + j) (fn (a + j)))
        = backoffSchedule base maxd a (fn a) ::
          (List.range k).map
            (fun j => backoffSchedule base maxd (a + 1 + j) (fn (a + 1 + j))) := by
      rw [List.range_succ_eq_map, List.map_cons, List.map_map]
      simp only [Nat.add_zero]
      congr 1
      apply List.map_congr_left
      intro j _
      simp only [Function.comp_apply]
      rw [show a + (j + 1) = a + 1 + j by omega]
    cases hfa : fn a with
    | success v2 => rw [hfa] at h0; simp [isRetryable] at h0
    | httpError s =>
      rw [hfa] at h0
      simp only [isRetryable] at h0
      rw [retryLoop_unfold, hfa]
      simp only [h0, if_true, hrest, hmap, hfa]
      simp [backoffSchedule]
    | connectionFailure =>
      rw [retryLoop_unfold, hfa]
      simp only [hrest, hmap, hfa]
      simp [backoffSchedule]

theorem retryLoop_nonretryable {α : Type} (fn : Nat → FnOutcome α) (base maxd : ℚ) :
    ∀ (k a left : Nat) (s : Nat), k ≤ left →
      (∀ j, j < k → isRetryable (fn (a + j)) = true) →
      fn (a + k) = FnOutcome.httpError s →
      (s == 429 || s == 400 || decide (500 ≤ s)) = false →
      retryLoop fn base maxd a left =
        ⟨RetryResult.raised (FnOutcome.httpError s), k + 1,
          (List.range k).map (fun j => backoffSchedule base maxd (a + j) (fn (a + j)))⟩ := by
  intro k
  induction k with
  | zero =>
    intro a left s _ _ hs hcond
    rw [Nat.add_zero] at hs
    rw [retryLoop_unfold, hs]
    simp only [hcond]
    rfl
  | succ k ih =>
    intro a left s hk hret hs hcond
    obtain ⟨left, rfl⟩ : ∃ m, left = m + 1 := ⟨left - 1, by omega⟩
    have h0 := hret 0 (Nat.succ_pos k)
    rw [Nat.add_zero] at h0
    have hs1 : fn (a + 1 + k) = FnOutcome.httpError s := by
      rw [show a + 1 + k = a + (k + 1) by omega]; exact hs
    have hret1 : ∀ j, j < k → isRetryable (fn (a + 1 + j)) = true := by
      intro j hj
      rw [show a + 1 + j = a + (j + 1) by omega]
      exact hret (j + 1) (by omega)
    have hrest := ih (a + 1) left s (by omega) hret1 hs1 hcond
    have hmap : (List.range (k + 1)).map
          (fun j => backoffSchedule base maxd (a + j) (fn (a + j)))
        = backoffSchedule base maxd a (fn a) ::
          (List.range k).map
            (fun j => backoffSchedule base maxd (a + 1 + j) (fn (a + 1 + j))) := by
      rw [List.range_succ_eq_map, List.map_cons, List.map_map]
      simp only [Nat.add_zero]
      congr 1
      apply List.map_congr_left
      intro j _
      simp only [Function.comp_apply]
      rw [show a + (j + 1) = a + 1 + j by omega]
    cases hfa : fn a with
    | success v2 => rw [hfa] at h0; simp [isRetryable] at h0
    | httpError t =>
      rw [hfa] at h0
      simp only [isRetryable] at h0
      rw [retryLoop_unfold, hfa]
      simp only [h0, if_true, hrest, hmap, hfa]
      simp [backoffSchedule]
    | connectionFailure =>
      rw [retryLoop_unfold, hfa]
      simp only [hrest, hmap, hfa]
      simp [backoffSchedule]

theorem retryLoop_exhaust {α : Type} (fn : Nat → FnOutcome α) (base maxd : ℚ) :
    ∀ (left a : Nat),
      (∀ j, j ≤ left → isRetryable (fn (a + j)) = true) →
      retryLoop fn base maxd a left =
        ⟨RetryResult.raised (fn (a + left)), left + 1,
          (List.range left).map (fun j => backoffSchedule base maxd (a + j) (fn (a + j)))⟩ := by
  intro left
  induction left with
  | zero =>
    intro a hret
    have h0 := hret 0 (Nat.le_refl 0)
    rw [Nat.add_zero] at h0 ⊢
    cases hfa : fn a with
    | success v => rw [hfa] at h0; simp [isRetryable] at h0
    | httpError s =>
      rw [hfa] at h0
      simp only [isRetryable] at h0
      rw [retryLoop_unfold, hfa]
      simp only [h0, if_true]
      rfl
    | connectionFailure =>
      rw [retryLoop_unfold, hfa]
      rfl
  | succ left ih =>
    intro a hret
    have h0 := hret 0 (Nat.zero_le _)
    rw [Nat.add_zero] at h0
    have hret1 : ∀ j, j ≤ left → isRetryable (fn (a + 1 + j)) = true := by
      intro j hj
      rw [show a + 1 + j = a + (j + 1) by omega]
      exact hret (j + 1) (by omega)
    have hrest := ih (a + 1) hret1
    have hlast : a + 1 + left = a + (left + 1) := by omega
    have hmap : (List.range (left + 1)).map
          (fun j => backoffSchedule base maxd (a + j) (fn (a + j)))
        = backoffSchedule base maxd a (fn a) ::
          (List.range left).map
            (fun j => backoffSchedule base maxd (a + 1 + j) (fn (a + 1 + j))) := by
      rw [List.range_succ_eq_map, List.map_cons, List.map_map]
      simp only [Nat.add_zero]
      congr 1
      apply List.map_congr_left
      intro j _
      simp only [Function.comp_apply]
      rw [show a + (j + 1) = a + 1 + j by omega]
    cases hfa : fn a with
    | success v => rw [hfa] at h0; simp [isRetryable] at h0
    | httpError s =>
      rw [hfa] at h0
      simp only [isRetryable] at h0
      rw [retryLoop_unfold, hfa]
      simp only [h0, if_true, hrest, hmap, hlast, hfa]
      simp [backoffSchedule]
    | connectionFailure =>
      rw [retryLoop_unfold, hfa]
      simp only [hrest, hmap, hlast, hfa]
      simp [backoffSchedule]

/-- C1: failures with HTTP status 429, 400 or at least 500 and
connection-level timeout failures are retried up to max_retries additional
attempts, sleeping min(base_delay * 2 ^ attempt, max_delay) after the failing
attempt (the product doubled inside the min for status 429), attempts indexed
from 0; a failure with any other 4xx status is never retried: the operation
is not invoked again and the original error propagates (in particular, if the
first invocation so fails, the operation ran exactly once); and when all
max_retries + 1 attempts fail with retryable failures the last failure is
re-raised.  The defaults max_retries = 3, base_delay = 1, max_delay = 30 are
the default arguments of retry_with_backoff. -/
theorem retry_with_backoff_policy {α : Type} (fn : Nat → FnOutcome α)
    (max_retries : Nat) (base_delay max_delay : ℚ) :
    (∀ (k s : Nat), k ≤ max_retries →
        (∀ j, j < k → isRetryable (fn j) = true) →
        fn k = FnOutcome.httpError s → 400 ≤ s → s < 500 → s ≠ 429 → s ≠ 400 →
        retry_with_backoff fn max_retries base_delay max_delay =
          ⟨RetryResult.raised (FnOutcome.httpError s), k + 1,
            (List.range k).map (fun j => backoffSchedule base_delay max_delay j (fn j))⟩)
    ∧ (∀ (k : Nat) (v : α), k ≤ max_retries →
        (∀ j, j < k → isRetryable (fn j) = true) →
        fn k = FnOutcome.success v →
        retry_with_backoff fn max_retries base_delay max_delay =
          ⟨RetryResult.ok v, k + 1,
            (List.range k).map (fun j => backoffSchedule base_delay max_delay j (fn j))⟩)
    ∧ ((∀ j, j ≤ max_retries → isRetryable (fn j) = true) →
        retry_with_backoff fn max_retries base_delay max_delay =
          ⟨RetryResult.raised (fn max_retries), max_retries + 1,
            (List.range max_retries).map
              (fun j => backoffSchedule base_delay max_delay j (fn j))⟩) := by
  refine ⟨?_, ?_, ?_⟩
  · intro k s hk hret hs h400 h500 hne429 hne400
    have hcond : (s == 429 || s == 400 || decide (500 ≤ s)) = false := by
      simp only [Bool.or_eq_false_iff, beq_eq_false_iff_ne, decide_eq_false_iff_not]
      exact ⟨⟨hne429, hne400⟩, by omega⟩
    have := retryLoop_nonretryable fn base_delay max_delay k 0 max_retries s hk
      (by simpa using hret) (by simpa using hs) hcond
    simpa [retry_with_backoff] using this
  · intro k v hk hret hs
    have := retryLoop_success fn base_delay max_delay k 0 max_retries v hk
      (by simpa using hret) (by simpa using hs)
    simpa [retry_with_backoff] using this
  · intro hret
    have := retryLoop_exhaust fn base_delay max_delay max_retries 0
      (by simpa using hret)
    simpa [retry_with_backoff] using this

/-- Concrete operation for the C1 witness: a 500 failure, then a timeout,
then success. -/
def retryFnW : Nat → FnOutcome Nat
  | 0 => FnOutcome.httpError 500
  | 1 => FnOutcome.connectionFailure
  | _ => FnOutcome.success 42

/-- Witness for C1: with the default parameters, the operation that fails
with 500, then times out, then succeeds, returns the success value after 3
invocations with the scheduled sleeps. -/
theorem retry_with_backoff_policy_witness :
    retry_with_backoff retryFnW 3 1 30 =
      ⟨RetryResult.ok 42, 3,
        (List.range 2).map (fun j => backoffSchedule 1 30 j (retryFnW j))⟩ :=
  (retry_with_backoff_policy retryFnW 3 1 30).2.1 2 42 (by decide) (by decide) rfl

/-! ## Opinion chunker (src/evaluation.py, _chunk_text) -/

/-- Python slice index normalization for s[a:b] on a sequence of the given
length: a negative index counts from the end of the sequence (clamped below
at 0), a nonnegative index is clamped above at the length. -/
def pySliceIdx (len : Nat) (i : Int) : Nat :=
  if i < 0 then ((len : Int) + i).toNat else min i.toNat len

/-- Python slice s[a:b] on a list of characters. -/
def pySlice (s : List Char) (a b : Int) : List Char :=
  (s.take (pySliceIdx s.length b)).drop (pySliceIdx s.length a)

/-- The while loop of _chunk_text: while start < len(text), append
text[start : start + chunk_size] and set start to end - overlap.  fuel bounds
the number of iterations of the loop body; a run of the source loop that
performs n iterations is reproduced exactly by any fuel of at least n, and
the loop diverges exactly when every fuel returns none. -/
def chunkTextLoop (text : List Char) (chunk_size overlap : Nat) :
    Nat → Int → Option (List (List Char))
  | 0, start =>
    if start < (text.length : Int) then none else some []
  | fuel + 1, start =>
    if start < (text.length : Int) then
      (chunkTextLoop text chunk_size overlap fuel
          (start + (chunk_size : Int) - (overlap : Int))).map
        (fun rest => pySlice text start (start + (chunk_size : Int)) :: rest)
    else some []

/-- Embedding of _chunk_text (src/evaluation.py lines 100 to 122), with the
default parameters of the source.  fuel as in chunkTextLoop. -/
def _chunk_text (text : List Char) (chunk_size : Nat := 20000)
    (overlap : Nat := 500) (fuel : Nat := 0) : Option (List (List Char)) :=
  if text.length ≤ chunk_size then some [text]
  else chunkTextLoop text chunk_size overlap fuel 0

/-- The tail of the reassembly of C3: every chunk with the overlap removed
from its start, concatenated. -/
def reassembleTail (overlap : Nat) (cs : List (List Char)) : List Char :=
  (cs.map (List.drop overlap)).flatten

/-- Reassembly of a chunk list: the first chunk kept whole, the overlap
removed from the start of every later chunk, all concatenated. -/
def reassemble (overlap : Nat) : List (List Char) → List Char
  | [] => []
  | c :: rest => c ++ reassembleTail overlap rest

theorem pySlice_nat (text : List Char) (m size : Nat) :
    pySlice text (m : Int) ((m : Int) + (size : Int)) = (text.drop m).take size := by
  unfold pySlice pySliceIdx
  rw [if_neg (by omega), if_neg (by omega)]
  have e1 : ((m : Int) + (size : Int)).toNat = m + size := by omega
  have e2 : ((m : Int)).toNat = m := by omega
  rw [e1, e2]
  rcases le_or_lt text.length m with h | h
  · rw [Nat.min_eq_right h]
    have h1 : (List.take ((m + size) ⊓ text.length) text).length ≤ text.length := by
      simp [List.length_take]
    rw [List.drop_eq_nil_of_le h1, List.drop_eq_nil_of_le h, List.take_nil]
  · rw [Nat.min_eq_left h.le]
    rcases le_or_lt text.length (m + size) with h2 | h2
    · rw [Nat.min_eq_right h2, List.take_length]
      exact (List.take_of_length_le (by simp [List.length_drop]; omega)).symm
    · rw [Nat.min_eq_left h2.le, List.drop_take]
      congr 1
      omega

theorem chunkTextLoop_stop (text : List Char) (size ov : Nat) :
    ∀ (fuel : Nat) (s : Int), ¬ s < (text.length : Int) →
      chunkTextLoop text size ov fuel s = some [] := by
  intro fuel
  cases fuel <;> intro s hs <;> simp [chunkTextLoop, hs]

theorem chunkTextLoop_head (text : List Char) (size ov : Nat) :
    ∀ (fuel : Nat) (s : Int) (cs : List (List Char)), s < (text.length : Int) →
      chunkTextLoop text size ov fuel s = some cs →
      ∃ fuel0 cs0, fuel = fuel0 + 1 ∧
        cs = pySlice text s (s + (size : Int)) :: cs0 ∧
        chunkTextLoop text size ov fuel0 (s + (size : Int) - (ov : Int)) = some cs0 := by
  intro fuel s cs hs h
  cases fuel with
  | zero => rw [chunkTextLoop, if_pos hs] at h; exact absurd h (by simp)
  | succ fuel =>
    rw [chunkTextLoop, if_pos hs] at h
    obtain ⟨cs0, h0, rfl⟩ := Option.map_eq_some'.mp h
    exact ⟨fuel, cs0, rfl, rfl, h0⟩

theorem chunkTextLoop_tail (text : List Char) (size ov : Nat) (hov : ov < size) :
    ∀ (fuel m : Nat) (cs : List (List Char)),
      chunkTextLoop text size ov fuel (m : Int) = some cs →
      reassembleTail ov cs = text.drop (m + ov) := by
  intro fuel
  induction fuel with
  | zero =>
    intro m cs h
    by_cases hm : (m : Int) < (text.length : Int)
    · rw [chunkTextLoop, if_pos hm] at h; exact absurd h (by simp)
    · rw [chunkTextLoop, if_neg hm] at h
      obtain rfl : ([] : List (List Char)) = cs := by simpa using h
      rw [List.drop_eq_nil_of_le (by omega)]
      simp [reassembleTail]
  | succ fuel ih =>
    intro m cs h
    by_cases hm : (m : Int) < (text.length : Int)
    · rw [chunkTextLoop, if_pos hm] at h
      obtain ⟨cs0, h0, rfl⟩ := Option.map_eq_some'.mp h
      have hcast : (m : Int) + (size : Int) - (ov : Int) = ((m + size - ov : Nat) : Int) := by
        omega
      rw [hcast] at h0
      have ht := ih (m + size - ov) cs0 h0
      rw [show m + size - ov + ov = m + size by omega] at ht
      simp only [reassembleTail, List.map_cons, List.flatten_cons]
      rw [pySlice_nat, List.drop_take, List.drop_drop]
      show (text.drop (m + ov)).take (size - ov) ++ reassembleTail ov cs0 =
        text.drop (m + ov)
      have hdd : List.drop (m + size) text =
          List.drop (size - ov) (List.drop (m + ov) text) := by
        rw [List.drop_drop]
        congr 1
        omega
      rw [ht, hdd, List.take_append_drop]
    · rw [chunkTextLoop, if_neg hm] at h
      obtain rfl : ([] : List (List Char)) = cs := by simpa using h
      rw [List.drop_eq_nil_of_le (by omega)]
      simp [reassembleTail]

theorem chunkTextLoop_chain (text : List Char) (size ov : Nat) (hov : ov < size) :
    ∀ (fuel m : Nat) (cs : List (List Char)),
      chunkTextLoop text size ov fuel (m : Int) = some cs →
      List.Chain' (fun w w' => w.length = size →
        w.drop (size - ov) = w'.take ov ∧ ov ≤ w'.length) cs := by
  intro fuel
  induction fuel with
  | zero =>
    intro m cs h
    by_cases hm : (m : Int) < (text.length : Int)
    · rw [chunkTextLoop, if_pos hm] at h; exact absurd h (by simp)
    · rw [chunkTextLoop, if_neg hm] at h
      obtain rfl : ([] : List (List Char)) = cs := by simpa using h
      exact List.chain'_nil
  | succ fuel ih =>
    intro m cs h
    by_cases hm : (m : Int) < (text.length : Int)
    · rw [chunkTextLoop, if_pos hm] at h
      obtain ⟨cs0, h0, rfl⟩ := Option.map_eq_some'.mp h
      have hcast : (m : Int) + (size : Int) - (ov : Int)
          = ((m + size - ov : Nat) : Int) := by omega
      rw [hcast] at h0
      refine List.chain'_cons'.mpr ⟨?_, ih _ cs0 h0⟩
      intro y hy
      by_cases hm2 : ((m + size - ov : Nat) : Int) < (text.length : Int)
      · obtain ⟨fuel0, cs1, _, rfl, _⟩ :=
          chunkTextLoop_head text size ov fuel _ cs0 hm2 h0
        simp only [List.head?_cons, Option.mem_def, Option.some.injEq] at hy
        subst hy
        intro hwlen
        rw [pySlice_nat] at hwlen
        have hms : m + size ≤ text.length := by
          rw [List.length_take, List.length_drop] at hwlen
          omega
        rw [pySlice_nat, pySlice_nat]
        constructor
        · rw [List.drop_take, List.drop_drop, List.take_take,
            Nat.min_eq_left hov.le, show size - (size - ov) = ov by omega,
            show m + (size - ov) = m + size - ov by omega]
        · rw [List.length_take, List.length_drop]
          omega
      · rw [chunkTextLoop_stop text size ov fuel _ hm2] at h0
        obtain rfl : ([] : List (List Char)) = cs0 := by simpa using h0
        simp at hy
    · rw [chunkTextLoop, if_neg hm] at h
      obtain rfl : ([] : List (List Char)) = cs := by simpa using h
      exact List.chain'_nil

theorem chunkTextLoop_total (text : List Char) (size ov : Nat) (hov : ov < size) :
    ∀ (fuel m : Nat), text.length ≤ m + fuel →
      (chunkTextLoop text size ov fuel (m : Int)).isSome = true := by
  intro fuel
  induction fuel with
  | zero =>
    intro m hfuel
    rw [chunkTextLoop, if_neg (by omega)]
    rfl
  | succ fuel ih =>
    intro m hfuel
    by_cases hm : (m : Int) < (text.length : Int)
    · rw [chunkTextLoop, if_pos hm,
        show (m : Int) + (size : Int) - (ov : Int) = ((m + size - ov : Nat) : Int) by omega,
        Option.isSome_map']
      exact ih (m + size - ov) (by omega)
    · rw [chunkTextLoop, if_neg hm]
      rfl

theorem chunkTextLoop_last (text : List Char) (size ov : Nat) (hov : ov < size) :
    ∀ (fuel m : Nat) (cs : List (List Char)), m < text.length →
      chunkTextLoop text size ov fuel (m : Int) = some cs →
      ∃ cs0 c, cs = cs0 ++ [c] ∧ ∀ x, text.getLast? = some x → x ∈ c := by
  intro fuel
  induction fuel with
  | zero =>
    intro m cs hm h
    rw [chunkTextLoop, if_pos (by omega)] at h
    exact absurd h (by simp)
  | succ fuel ih =>
    intro m cs hm h
    rw [chunkTextLoop, if_pos (by omega)] at h
    obtain ⟨cs0, h0, rfl⟩ := Option.map_eq_some'.mp h
    rw [show (m : Int) + (size : Int) - (ov : Int) = ((m + size - ov : Nat) : Int) by omega] at h0
    by_cases hm2 : m + size - ov < text.length
    · obtain ⟨cs1, c, rfl, hc⟩ := ih (m + size - ov) cs0 hm2 h0
      exact ⟨_ :: cs1, c, rfl, hc⟩
    · rw [chunkTextLoop_stop text size ov fuel _ (by omega)] at h0
      obtain rfl : ([] : List (List Char)) = cs0 := by simpa using h0
      refine ⟨[], _, rfl, ?_⟩
      intro x hx
      rw [pySlice_nat, List.take_of_length_le (by rw [List.length_drop]; omega)]
      have hd : (text.drop m).getLast? = some x := by
        rw [List.getLast?_drop, if_neg (by omega), hx]
      exact List.mem_of_getLast?_eq_some hd

/-- C3: for any text longer than the chunk size (with overlap smaller than
the chunk size), concatenating the chunks returned by the chunker, after
removing the declared overlap length from the start of every chunk except
the first, reconstructs the original text exactly; this holds for every
terminating run of the fueled loop. -/
theorem chunk_text_reconstructs (text : List Char) (size ov fuel : Nat)
    (cs : List (List Char)) (hlen : size < text.length) (hov : ov < size)
    (h : _chunk_text text size ov fuel = some cs) :
    reassemble ov cs = text := by
  rw [_chunk_text, if_neg (by omega)] at h
  rw [show (0 : Int) = ((0 : Nat) : Int) by norm_num] at h
  obtain ⟨fuel0, cs0, rfl, rfl, h0⟩ :=
    chunkTextLoop_head text size ov fuel _ cs (by omega) h
  rw [show ((0 : Nat) : Int) + (size : Int) - (ov : Int) = ((size - ov : Nat) : Int) by omega]
    at h0
  have ht := chunkTextLoop_tail text size ov hov fuel0 (size - ov) cs0 h0
  rw [show size - ov + ov = size by omega] at ht
  simp only [reassemble]
  rw [pySlice_nat, List.drop_zero, ht, List.take_append_drop]

/-- C2 (amended): for every text longer than the chunk size, with overlap
smaller than the chunk size, every window of full length chunk_size that has
a successor shares exactly overlap characters with that successor: its last
overlap characters equal the first overlap characters of the successor, and
the successor has at least overlap characters.  (The claim as stated further
asserted the sharing for every window with a successor, including the
truncated ones near the end of the text, and that no longer shared region
exists; both clauses are refuted by chunk_text_overlap_counterexample.) -/
theorem chunk_text_overlap (text : List Char) (size ov fuel : Nat)
    (cs : List (List Char)) (hlen : size < text.length) (hov : ov < size)
    (h : _chunk_text text size ov fuel = some cs) :
    List.Chain' (fun w w' => w.length = size →
      w.drop (size - ov) = w'.take ov ∧ ov ≤ w'.length) cs := by
  rw [_chunk_text, if_neg (by omega)] at h
  rw [show (0 : Int) = ((0 : Nat) : Int) by norm_num] at h
  exact chunkTextLoop_chain text size ov hov fuel 0 cs h

/-- An 11-character text, chunked with size 10 and overlap 5 into
three windows of lengths 10, 6 and 1. -/
def t11 : List Char := ['a', 'b', 'c', 'd', 'e', 'f', 'g', 'h', 'i', 'j', 'k']

/-- 25 identical characters, chunked with size 10 and overlap 5 into five
windows. -/
def t25 : List Char := List.replicate 25 'a'

/-- Counterexample for C2 as stated.  First conjunct: on the 11-character
text with size 10 and overlap 5 the second window (length 6, truncated) has
a successor of length 1, and its last 5 characters differ from the first 5
characters of the successor, refuting the exact-sharing clause even with
overlap < size.  Remaining conjuncts: on 25 identical characters the
last-5-equals-first-5 clause holds for every consecutive pair, yet a longer
shared region exists (for example length 6), refuting the
no-longer-shared-region clause. -/
theorem chunk_text_overlap_counterexample :
    (¬ ∀ cs, _chunk_text t11 10 5 (t11.length + 1) = some cs →
        List.Chain' (fun w w' => w.drop (w.length - 5) = w'.take 5) cs)
    ∧ (∀ cs, _chunk_text t25 10 5 (t25.length + 1) = some cs →
        List.Chain' (fun w w' => w.drop (w.length - 5) = w'.take 5) cs)
    ∧ ¬ (∀ cs, _chunk_text t25 10 5 (t25.length + 1) = some cs →
        List.Chain' (fun w w' => ∀ m, m < w.length + 1 → 5 < m → m ≤ w'.length →
          w.drop (w.length - m) ≠ w'.take m) cs) := by
  refine ⟨?_, ?_, ?_⟩
  · intro hcl
    have h := hcl [['a', 'b', 'c', 'd', 'e', 'f', 'g', 'h', 'i', 'j'],
      ['f', 'g', 'h', 'i', 'j', 'k'], ['k']] (by decide)
    simp only [List.chain'_cons] at h
    exact absurd h.2.1 (by decide)
  · intro cs h
    have hc : _chunk_text t25 10 5 (t25.length + 1) =
        some [List.replicate 10 'a', List.replicate 10 'a', List.replicate 10 'a',
          List.replicate 10 'a', List.replicate 5 'a'] := by decide
    rw [h] at hc
    obtain rfl := (Option.some_inj.mp hc)
    simp only [List.chain'_cons]
    exact ⟨by decide, by decide, by decide, by decide, List.chain'_singleton _⟩
  · intro hcl
    have h := hcl [List.replicate 10 'a', List.replicate 10 'a', List.replicate 10 'a',
      List.replicate 10 'a', List.replicate 5 'a'] (by decide)
    simp only [List.chain'_cons] at h
    exact absurd h.1 (by decide)

/-- Witness for C2 (amended) on the 11-character text with size 10 and
overlap 5: the first window is full and shares its last 5 characters with
the first 5 of its successor; the truncated later windows make the
implication vacuous. -/
theorem chunk_text_overlap_witness :
    List.Chain' (fun w w' => w.length = 10 →
      w.drop (10 - 5) = w'.take 5 ∧ 5 ≤ w'.length)
      [['a', 'b', 'c', 'd', 'e', 'f', 'g', 'h', 'i', 'j'],
        ['f', 'g', 'h', 'i', 'j', 'k'], ['k']] :=
  chunk_text_overlap t11 10 5 12 _ (by decide) (by decide) (by decide)

/-- Witness for C3 on the 11-character text with size 10 and overlap 5. -/
theorem chunk_text_reconstructs_witness :
    reassemble 5 [['a', 'b', 'c', 'd', 'e', 'f', 'g', 'h', 'i', 'j'],
      ['f', 'g', 'h', 'i', 'j', 'k'], ['k']] = t11 :=
  chunk_text_reconstructs t11 10 5 12 _ (by decide) (by decide) (by decide)

/-- C4 (amended): whenever overlap < chunk_size the chunker terminates (fuel
text.length + 1 suffices for the loop), every character of the text occurs
in some returned window, and the last character of a non-empty text occurs
in the final window.  (As stated the claim quantified over every chunk size
and overlap; for overlap >= chunk_size on a text longer than the chunk size
the source loop never advances and diverges, see
chunk_text_counterexample.) -/
theorem chunk_text_total_correct (text : List Char) (size ov : Nat) (hov : ov < size) :
    (_chunk_text text size ov (text.length + 1)).isSome = true
    ∧ ∀ cs, _chunk_text text size ov (text.length + 1) = some cs →
        (∀ x, x ∈ text → ∃ c, c ∈ cs ∧ x ∈ c)
        ∧ ∀ x, text.getLast? = some x → ∃ c, cs.getLast? = some c ∧ x ∈ c := by
  by_cases hle : text.length ≤ size
  · refine ⟨by rw [_chunk_text, if_pos hle]; rfl, ?_⟩
    intro cs h
    rw [_chunk_text, if_pos hle] at h
    obtain rfl := (Option.some_inj.mp h).symm
    refine ⟨fun x hx => ⟨text, by simp, hx⟩, fun x hx => ⟨text, by simp, ?_⟩⟩
    exact List.mem_of_getLast?_eq_some hx
  · constructor
    · rw [_chunk_text, if_neg hle,
        show (0 : Int) = ((0 : Nat) : Int) by norm_num]
      exact chunkTextLoop_total text size ov hov (text.length + 1) 0 (by omega)
    · intro cs h
      have hrec := chunk_text_reconstructs text size ov (text.length + 1) cs
        (by omega) hov h
      rw [_chunk_text, if_neg hle,
        show (0 : Int) = ((0 : Nat) : Int) by norm_num] at h
      constructor
      · intro x hx
        rw [← hrec] at hx
        cases cs with
        | nil => simp [reassemble] at hx
        | cons c cs0 =>
          simp only [reassemble] at hx
          rcases List.mem_append.mp hx with hx1 | hx2
          · exact ⟨c, List.mem_cons_self c cs0, hx1⟩
          · simp only [reassembleTail] at hx2
            obtain ⟨l, hl, hxl⟩ := List.mem_flatten.mp hx2
            obtain ⟨c2, hc2, rfl⟩ := List.mem_map.mp hl
            exact ⟨c2, List.mem_cons_of_mem c hc2, List.mem_of_mem_drop hxl⟩
      · intro x hx
        obtain ⟨cs0, c, rfl, hc⟩ :=
          chunkTextLoop_last text size ov hov (text.length + 1) 0 cs
            (by omega) h
        exact ⟨c, List.getLast?_concat cs0, hc x hx⟩

/-- The 6-character text of the C4 counterexample. -/
def t6 : List Char := ['a', 'b', 'c', 'd', 'e', 'f']

theorem chunkTextLoop_t6_diverges :
    ∀ fuel, chunkTextLoop t6 5 5 fuel 0 = none := by
  intro fuel
  induction fuel with
  | zero => rw [chunkTextLoop, if_pos (by decide)]
  | succ fuel ih =>
    rw [chunkTextLoop, if_pos (by decide),
      show (0 : Int) + (5 : Nat) - (5 : Nat) = 0 by norm_num, ih]
    rfl

/-- Counterexample for C4 as stated: the claim quantifies over every chunk
size and overlap, but with chunk size 5 and overlap 5 on a 6-character text
the source while loop never advances start, so the chunker does not
terminate: no amount of fuel yields a result. -/
theorem chunk_text_counterexample :
    ¬ ∃ fuel cs, _chunk_text t6 5 5 fuel = some cs := by
  rintro ⟨fuel, cs, h⟩
  rw [_chunk_text, if_neg (by decide), chunkTextLoop_t6_diverges fuel] at h
  exact absurd h (by simp)

/-- Witness for C4 (amended) on the 11-character text with size 10 and
overlap 5: chunking terminates, covers every character, and keeps the last
character in the final window. -/
theorem chunk_text_total_correct_witness :
    (_chunk_text t11 10 5 (t11.length + 1)).isSome = true
    ∧ ∀ cs, _chunk_text t11 10 5 (t11.length + 1) = some cs →
        (∀ x, x ∈ t11 → ∃ c, c ∈ cs ∧ x ∈ c)
        ∧ ∀ x, t11.getLast? = some x → ∃ c, cs.getLast? = some c ∧ x ∈ c :=
  chunk_text_total_correct t11 10 5 (by decide)

/-! ## Citation validator and cache (src/courtlistener.py) -/

/-- Python str.lower on citation text, modeled with Char.toLower. -/
def pyLower (s : String) : String := String.mk (s.toList.map Char.toLower)

/-- Python str.strip: whitespace removed from both ends. -/
def pyStrip (s : String) : String :=
  String.mk (((s.toList.dropWhile Char.isWhitespace).reverse.dropWhile
    Char.isWhitespace).reverse)

/-- Python truthiness of an optional string: None and the empty string are
falsy, every other string is truthy. -/
def pyTruthy : Option String → Bool
  | none => false
  | some s => !(s == "")

/-- The Citation model (src/models.py lines 105 to 128) restricted to the
fields the validator reads or writes; the bibliographic fields volume,
reporter, page and year are carried unchanged by the validator and are
omitted. -/
structure Citation where
  raw_text : String
  case_name : Option String := none
  court : Option String := none
  is_valid : Option Bool := none
  courtlistener_id : Option String := none
  validation_error : Option String := none
  opinion_text : Option String := none
deriving DecidableEq

/-- A cached citation validation result (src/courtlistener.py CacheEntry and
the dict stored by CitationCache.set).  The wall-clock timestamp field is
not modeled; raw_text is stored for auditability as in the source. -/
structure CacheEntry where
  is_valid : Bool
  courtlistener_id : Option String := none
  case_name : Option String := none
  opinion_text : Option String := none
  error : Option String := none
  raw_text : String := ""
deriving DecidableEq

/-- The in-memory citation cache: a finite map from fingerprint key to
entry, modeled as an association list (first binding wins, set prepends:
observably the dict store-or-overwrite of the source). -/
abbrev CitationCacheMap := List (String × CacheEntry)

/-- CitationCache.make_key: md5 over the lowercased, stripped raw text.  The
md5 hexdigest is abstracted as an injective fingerprint and modeled by the
normalized text itself; the claims below never depend on hash collisions. -/
def make_key (raw_text : String) : String := pyStrip (pyLower raw_text)

/-- CitationCache.get for a citation. -/
def cache_get (cache : CitationCacheMap) (cit : Citation) : Option CacheEntry :=
  (cache.find? (fun p => p.1 == make_key cit.raw_text)).map (fun p => p.2)

/-- CitationCache.set: store a validation result under the citation
fingerprint. -/
def cache_set (cache : CitationCacheMap) (cit : Citation) (entry : CacheEntry) :
    CitationCacheMap :=
  (make_key cit.raw_text, entry) :: cache

/-- The cluster data validate_citation consumes from a successful lookup:
the cluster id (through str()), the optional case_name field, and the result
of _extract_opinion_text on the cluster (that helper performs its own
fetches and markup stripping; it is abstracted into the oracle result). -/
structure Cluster where
  id : String
  case_name : Option String := none
  opinion_text : Option String := none
deriving DecidableEq

/-- Result of validate_citation: the enriched citation, the updated cache,
and the number of lookup_citation network calls performed. -/
structure ValidationResult where
  citation : Citation
  cache : CitationCacheMap
  lookups : Nat
deriving DecidableEq

/-- Embedding of CourtListenerClient.validate_citation (src/courtlistener.py
lines 254 to 298).  The external citation-lookup endpoint lookup_citation,
with its retries and rate limiting, is modeled by the oracle lookup
returning the first matching cluster, or none when not found. -/
def validate_citation (lookup : String → Option Cluster)
    (cache : CitationCacheMap) (cit : Citation) : ValidationResult :=
  match cache_get cache cit with
  | some cached =>
    { citation :=
        { cit with
          is_valid := some cached.is_valid
          courtlistener_id := cached.courtlistener_id
          opinion_text := cached.opinion_text
          case_name :=
            if pyTruthy cached.case_name then cached.case_name else cit.case_name
          validation_error :=
            if pyTruthy cached.error then cached.error else cit.validation_error }
      cache := cache
      lookups := 0 }
  | none =>
    match lookup cit.raw_text with
    | some cluster =>
      let withName :=
        if !(pyTruthy cit.case_name) && pyTruthy cluster.case_name then
          cluster.case_name
        else cit.case_name
      { citation :=
          { cit with
            is_valid := some true
            courtlistener_id := some cluster.id
            case_name := withName
            opinion_text := cluster.opinion_text }
        cache := cache_set cache cit
          { is_valid := true
            courtlistener_id := some cluster.id
            case_name := withName
            opinion_text := cluster.opinion_text
            error := none
            raw_text := cit.raw_text }
        lookups := 1 }
    | none =>
      { citation :=
          { cit with
            is_valid := some false
            validation_error := some "Citation not found in CourtListener" }
        cache := cache_set cache cit
          { is_valid := false, error := some "Not found", raw_text := cit.raw_text }
        lookups := 1 }

/-- Embedding of CourtListenerClient.validate_citations (src/courtlistener.py
lines 300 to 310): validates each citation in order, skipping statutes
(court equal to "STATUTE") and citations whose validity is already resolved;
the final component counts all lookup_citation network calls. -/
def validate_citations (lookup : String → Option Cluster)
    (cache : CitationCacheMap) : List Citation → List Citation × CitationCacheMap × Nat
  | [] => ([], cache, 0)
  | cit :: rest =>
    if cit.court == some "STATUTE" || !(cit.is_valid == none) then
      let r := validate_citations lookup cache rest
      (cit :: r.1, r.2.1, r.2.2)
    else
      let v := validate_citation lookup cache cit
      let r := validate_citations lookup v.cache rest
      (v.citation :: r.1, r.2.1, v.lookups + r.2.2)

/-- C5 (amended): in the found-lookup path a Python-truthy cluster case name
is written onto the citation only when the citation case_name is not already
truthy, and a not-found lookup leaves the case name unchanged; but in the
cache-served path a truthy cached case name overwrites the citation
case_name unconditionally, even when one is already set. -/
theorem validate_citation_case_name (lookup : String → Option Cluster)
    (cache : CitationCacheMap) (cit : Citation) :
    (∀ e, cache_get cache cit = some e →
      (validate_citation lookup cache cit).citation.case_name =
        (if pyTruthy e.case_name then e.case_name else cit.case_name))
    ∧ (∀ cl, cache_get cache cit = none → lookup cit.raw_text = some cl →
      (validate_citation lookup cache cit).citation.case_name =
        (if !(pyTruthy cit.case_name) && pyTruthy cl.case_name then cl.case_name
         else cit.case_name))
    ∧ (cache_get cache cit = none → lookup cit.raw_text = none →
      (validate_citation lookup cache cit).citation.case_name = cit.case_name) := by
  refine ⟨?_, ?_, ?_⟩
  · intro e he
    simp [validate_citation, he]
  · intro cl hc hl
    simp [validate_citation, hc, hl]
  · intro hc hl
    simp [validate_citation, hc, hl]

/-- The cached citation of the C5 counterexample: raw text "x" with case
name already set to "Old". -/
def citC5 : Citation := { raw_text := "x", case_name := some "Old" }

/-- A cache holding, under the fingerprint of "x", an entry with case name
"New". -/
def cacheC5 : CitationCacheMap :=
  [("x", { is_valid := true, case_name := some "New", raw_text := "x" })]

/-- Counterexample for C5 as stated: a citation that already carries case
name "Old", validated against a cache entry carrying case name "New", comes
out of validate_citation with case name "New": the cache-served path
overwrites an already-set case name instead of keeping it. -/
theorem validate_citation_case_name_counterexample :
    citC5.case_name = some "Old"
    ∧ (validate_citation (fun _ => none) cacheC5 citC5).citation.case_name
        = some "New" := by
  exact ⟨rfl, by decide⟩

/-- Witness for C5 (amended), cache-served branch, at the counterexample
input. -/
theorem validate_citation_case_name_witness :
    (validate_citation (fun _ => none) cacheC5 citC5).citation.case_name =
      (if pyTruthy (some "New") then some "New" else citC5.case_name) :=
  (validate_citation_case_name (fun _ => none) cacheC5 citC5).1
    { is_valid := true, case_name := some "New", raw_text := "x" } (by decide)

theorem validate_citation_raw_text (lookup : String → Option Cluster)
    (cache : CitationCacheMap) (cit : Citation) :
    (validate_citation lookup cache cit).citation.raw_text = cit.raw_text := by
  cases hc : cache_get cache cit with
  | some e => simp [validate_citation, hc]
  | none =>
    cases hl : lookup cit.raw_text with
    | some cl => simp [validate_citation, hc, hl]
    | none => simp [validate_citation, hc, hl]

theorem validate_citation_cached (lookup : String → Option Cluster)
    (cache : CitationCacheMap) (cit : Citation) :
    ∃ e, cache_get (validate_citation lookup cache cit).cache
      (validate_citation lookup cache cit).citation = some e := by
  cases hc : cache_get cache cit with
  | some e =>
    refine ⟨e, ?_⟩
    simp only [validate_citation, hc]
    simpa [cache_get] using hc
  | none =>
    cases hl : lookup cit.raw_text with
    | some cl =>
      refine ⟨⟨true, some cl.id,
        (if !(pyTruthy cit.case_name) && pyTruthy cl.case_name then cl.case_name
         else cit.case_name),
        cl.opinion_text, none, cit.raw_text⟩, ?_⟩
      simp only [validate_citation, hc, hl]
      simp [cache_get, cache_set, List.find?]
    | none =>
      refine ⟨⟨false, none, none, none, some "Not found", cit.raw_text⟩, ?_⟩
      simp only [validate_citation, hc, hl]
      simp [cache_get, cache_set, List.find?]

theorem validate_citations_length (lookup : String → Option Cluster) :
    ∀ (cits : List Citation) (cache : CitationCacheMap),
      (validate_citations lookup cache cits).1.length = cits.length := by
  intro cits
  induction cits with
  | nil => intro cache; rfl
  | cons cit rest ih =>
    intro cache
    by_cases hskip : (cit.court == some "STATUTE" || !(cit.is_valid == none)) = true
    · simp only [validate_citations, hskip, if_true, List.length_cons]
      rw [ih]
    · rw [validate_citations, if_neg hskip]
      simp only [List.length_cons]
      rw [ih]

/-- C6: validate_citations skips citations whose court is "STATUTE" and
citations whose validity is already resolved, keeping them unchanged at
their position; a batch consisting only of such citations is returned
entirely unchanged with zero network calls; and validation is at-most-once
per citation instance: one validate_citation call resolves the validity, and
validating its result again against the updated cache performs zero network
calls (it is served from the cache). -/
theorem validate_citations_skip_and_once (lookup : String → Option Cluster)
    (cache : CitationCacheMap) :
    (∀ (cits : List Citation) (i : Nat) (hi : i < cits.length),
      ((cits[i].court == some "STATUTE" || !(cits[i].is_valid == none)) = true) →
      (validate_citations lookup cache cits).1[i]? = some cits[i])
    ∧ (∀ cits : List Citation,
      (∀ cit, cit ∈ cits →
        (cit.court == some "STATUTE" || !(cit.is_valid == none)) = true) →
      validate_citations lookup cache cits = (cits, cache, 0))
    ∧ (∀ cit : Citation,
      (validate_citation lookup cache cit).citation.is_valid ≠ none
      ∧ (validate_citation lookup
          (validate_citation lookup cache cit).cache
          (validate_citation lookup cache cit).citation).lookups = 0) := by
  refine ⟨?_, ?_, ?_⟩
  · intro cits
    induction cits generalizing cache with
    | nil => intro i hi; simp at hi
    | cons cit rest ih =>
      intro i hi hskip
      cases i with
      | zero =>
        simp only [List.getElem_cons_zero] at hskip
        rw [validate_citations, if_pos hskip]
        simp
      | succ i =>
        simp only [List.getElem_cons_succ] at hskip ⊢
        have hi2 : i < rest.length := by simpa using hi
        by_cases hskip0 : (cit.court == some "STATUTE" || !(cit.is_valid == none)) = true
        · rw [validate_citations, if_pos hskip0]
          simpa using ih cache i hi2 hskip
        · rw [validate_citations, if_neg hskip0]
          simpa using ih (validate_citation lookup cache cit).cache i hi2 hskip
  · intro cits
    induction cits generalizing cache with
    | nil => intro _; rfl
    | cons cit rest ih =>
      intro hall
      rw [validate_citations, if_pos (hall cit (List.mem_cons_self cit rest))]
      rw [ih cache (fun c hc => hall c (List.mem_cons_of_mem cit hc))]
  · intro cit
    constructor
    · cases hc : cache_get cache cit with
      | some e => simp [validate_citation, hc]
      | none =>
        cases hl : lookup cit.raw_text with
        | some cl => simp [validate_citation, hc, hl]
        | none => simp [validate_citation, hc, hl]
    · obtain ⟨e, he⟩ := validate_citation_cached lookup cache cit
      generalize validate_citation lookup cache cit = v at he ⊢
      simp [validate_citation, he]

/-- A statute citation for the C6 witness. -/
def citStat : Citation := { raw_text := "M.G.L. c. 186", court := some "STATUTE" }

/-- Witness for C6: a batch holding one statute citation is returned
unchanged with zero network calls. -/
theorem validate_citations_skip_and_once_witness :
    validate_citations (fun _ => none) [] [citStat] = ([citStat], [], 0) :=
  (validate_citations_skip_and_once (fun _ => none) []).2.1 [citStat] (by decide)

/-! ## Proposition support evaluation (src/evaluation.py) -/

/-- Result of one LLM evaluation of whether a case supports a proposition
(src/evaluation.py PropositionSupportResult). -/
structure PropositionSupportResult where
  supports_proposition : Bool
  confidence : String
  reasoning : String
  relevant_excerpt : Option String := none
deriving DecidableEq

/-- Outcome of one _evaluate_single_chunk call inside the fallback loop:
either a parsed result (a null parse is already replaced inside
_evaluate_single_chunk by a synthetic negative result), or a
BadRequestError, which the loop treats as chunk-still-too-large and
skips. -/
inductive ChunkOutcome where
  | ok (r : PropositionSupportResult)
  | badRequest
deriving DecidableEq

/-- confidence_order.get(confidence, 3) of the source: high 0, medium 1,
low 2, anything else 3. -/
def confidence_order (c : String) : Nat :=
  if c == "high" then 0 else if c == "medium" then 1 else if c == "low" then 2 else 3

/-- The for loop of the chunked fallback of evaluate_proposition_support
(src/evaluation.py lines 196 to 221): iterate the chunks in order, skip any
chunk whose own evaluation raises BadRequestError, collect the parsed
results, track the best supporting result (a supporting result replaces the
current best when there is none yet, or when it is high-confidence and the
current best is not), and break at the first high-confidence supporting
result.  evalChunk i c models the LLM call on the i-th chunk c. -/
def chunkEvalLoop (evalChunk : Nat → List Char → ChunkOutcome) :
    List (List Char) → Nat → Option PropositionSupportResult →
    List PropositionSupportResult →
    Option PropositionSupportResult × List PropositionSupportResult
  | [], _, best, all => (best, all)
  | chunk :: rest, i, best, all =>
    match evalChunk i chunk with
    | .badRequest => chunkEvalLoop evalChunk rest (i + 1) best all
    | .ok r =>
      if r.supports_proposition then
        match best with
        | none =>
          if r.confidence == "high" then (some r, all ++ [r])
          else chunkEvalLoop evalChunk rest (i + 1) (some r) (all ++ [r])
        | some b =>
          if r.confidence == "high" && !(b.confidence == "high") then
            (some r, all ++ [r])
          else chunkEvalLoop evalChunk rest (i + 1) best (all ++ [r])
      else chunkEvalLoop evalChunk rest (i + 1) best (all ++ [r])

/-- The sort key comparison the fallback passes to the stable sort:
confidence_order rank, nondecreasing (the Python list.sort with key is
stable; Lean mergeSort is stable as well). -/
def confLE (a b : PropositionSupportResult) : Bool :=
  decide (confidence_order a.confidence ≤ confidence_order b.confidence)

/-- The chunked-evaluation fallback of evaluate_proposition_support
(src/evaluation.py lines 186 to 251), applied to the already computed chunk
list: run the loop; if a supporting result was tracked, return it with the
multi-chunk note prefixed; otherwise, if any results were collected, sort
them by confidence_order (Python sort, stable) and return the first with the
multi-chunk note naming the chunk count; otherwise return the synthetic
all-chunks-failed negative result. -/
def chunked_fallback (evalChunk : Nat → List Char → ChunkOutcome)
    (chunks : List (List Char)) : PropositionSupportResult :=
  match chunkEvalLoop evalChunk chunks 0 none [] with
  | (some best, _) =>
    { best with reasoning := "[Evaluated in chunks] " ++ best.reasoning }
  | (none, all) =>
    match all.mergeSort confLE with
    | [] =>
      { supports_proposition := false, confidence := "low",
        reasoning := "Failed to evaluate proposition support (all chunks failed)",
        relevant_excerpt := none }
    | r :: _ =>
      { r with reasoning :=
          "[Evaluated in " ++ toString chunks.length ++ " chunks] " ++ r.reasoning }

theorem chunkEvalLoop_neg (evalChunk : Nat → List Char → ChunkOutcome) :
    ∀ (chunks : List (List Char)) (i : Nat) (acc : List PropositionSupportResult),
      (∀ (k : Nat) (hk : k < chunks.length) (r : PropositionSupportResult),
        evalChunk (i + k) chunks[k] = ChunkOutcome.ok r →
        r.supports_proposition = false) →
      (chunkEvalLoop evalChunk chunks i none acc).1 = none
      ∧ ∃ new, (chunkEvalLoop evalChunk chunks i none acc).2 = acc ++ new
          ∧ ∀ x ∈ new, x.supports_proposition = false := by
  intro chunks
  induction chunks with
  | nil =>
    intro i acc _
    exact ⟨rfl, [], by simp [chunkEvalLoop], by simp⟩
  | cons chunk rest ih =>
    intro i acc hneg
    have hshift : ∀ (k : Nat) (hk : k < rest.length) (r : PropositionSupportResult),
        evalChunk (i + 1 + k) rest[k] = ChunkOutcome.ok r →
        r.supports_proposition = false := by
      intro k hk r h
      refine hneg (k + 1) (by simpa using hk) r ?_
      rw [show i + (k + 1) = i + 1 + k by omega]
      simpa using h
    cases he : evalChunk i chunk with
    | badRequest =>
      rw [chunkEvalLoop, he]
      exact ih (i + 1) acc hshift
    | ok r =>
      have hr : r.supports_proposition = false := by
        refine hneg 0 (by simp) r ?_
        simpa using he
      rw [chunkEvalLoop, he]
      simp only [hr, Bool.false_eq_true, if_false]
      obtain ⟨h1, new2, h2, h3⟩ := ih (i + 1) (acc ++ [r]) hshift
      refine ⟨h1, r :: new2, ?_, ?_⟩
      · rw [h2, List.append_assoc]
        rfl
      · intro x hx
        rcases List.mem_cons.mp hx with rfl | hx2
        · exact hr
        · exact h3 x hx2

theorem mergeSort_head_min (all rest : List PropositionSupportResult)
    (r : PropositionSupportResult)
    (h : all.mergeSort confLE = r :: rest) :
    r ∈ all ∧ ∀ x ∈ all, confidence_order r.confidence ≤ confidence_order x.confidence := by
  have htrans : ∀ a b c : PropositionSupportResult,
      confLE a b → confLE b c → confLE a c := by
    intro a b c hab hbc
    simp only [confLE, decide_eq_true_eq] at hab hbc ⊢
    omega
  have htotal : ∀ a b : PropositionSupportResult, confLE a b || confLE b a := by
    intro a b
    simp only [confLE, Bool.or_eq_true, decide_eq_true_eq]
    omega
  have hsorted := List.sorted_mergeSort htrans htotal all
  rw [h] at hsorted
  obtain ⟨hhead, -⟩ := List.pairwise_cons.mp hsorted
  constructor
  · have : r ∈ r :: rest := List.mem_cons_self r rest
    rw [← h] at this
    exact List.mem_mergeSort.mp this
  · intro x hx
    have hx2 : x ∈ r :: rest := by
      rw [← h]
      exact List.mem_mergeSort.mpr hx
    rcases List.mem_cons.mp hx2 with rfl | hx3
    · exact Nat.le_refl _
    · simpa [confLE] using hhead x hx3

/-- C7: in the chunked-evaluation fallback, when no evaluated chunk reports
supports_proposition true and at least one chunk produced a result, the
returned result is, among all chunk results obtained, a negative result
with the most confident verdict under confidence_order (high ranked 0
before medium 1 before low 2, so the numerically lowest rank is picked),
and its reasoning is prefixed with the multi-chunk note naming the number
of chunks. -/
theorem chunked_fallback_best_negative (evalChunk : Nat → List Char → ChunkOutcome)
    (chunks : List (List Char))
    (hneg : ∀ (k : Nat) (hk : k < chunks.length) (r : PropositionSupportResult),
      evalChunk k chunks[k] = ChunkOutcome.ok r → r.supports_proposition = false)
    (hsome : (chunkEvalLoop evalChunk chunks 0 none []).2 ≠ []) :
    ∃ r, r ∈ (chunkEvalLoop evalChunk chunks 0 none []).2
      ∧ (∀ x ∈ (chunkEvalLoop evalChunk chunks 0 none []).2,
          confidence_order r.confidence ≤ confidence_order x.confidence)
      ∧ r.supports_proposition = false
      ∧ chunked_fallback evalChunk chunks =
          { r with reasoning :=
              "[Evaluated in " ++ toString chunks.length ++ " chunks] "
                ++ r.reasoning } := by
  obtain ⟨hnone, new, hall, hneg2⟩ := chunkEvalLoop_neg evalChunk chunks 0 []
    (by
      intro k hk r h
      refine hneg k hk r ?_
      rw [Nat.zero_add] at h
      exact h)
  rw [List.nil_append] at hall
  have hsplit : chunkEvalLoop evalChunk chunks 0 none [] = (none, new) := by
    exact Prod.ext hnone hall
  rw [hsplit] at hsome ⊢
  simp only [ne_eq] at hsome
  cases hsort : new.mergeSort confLE with
  | nil =>
    have hlen : (new.mergeSort confLE).length = new.length :=
      List.length_mergeSort new
    rw [hsort] at hlen
    exact absurd (List.length_eq_zero.mp hlen.symm) hsome
  | cons r rest =>
    obtain ⟨hmem, hmin⟩ := mergeSort_head_min new rest r hsort
    refine ⟨r, hmem, hmin, hneg2 r hmem, ?_⟩
    rw [chunked_fallback, hsplit]
    simp only [hsort]

/-- Chunks for the C7 witness. -/
def wChunks : List (List Char) := [['a'], ['b']]

/-- Chunk evaluator for the C7 witness: both chunks evaluate to negative
results, the first with low confidence, the second with high confidence. -/
def wEval : Nat → List Char → ChunkOutcome := fun i _ =>
  if i == 0 then ChunkOutcome.ok ⟨false, "low", "r0", none⟩
  else ChunkOutcome.ok ⟨false, "high", "r1", none⟩

/-- Witness for C7: with two negative chunk results of low and high
confidence, the fallback returns the high-confidence negative result with
the multi-chunk note. -/
theorem chunked_fallback_best_negative_witness :
    ∃ r, r ∈ (chunkEvalLoop wEval wChunks 0 none []).2
      ∧ (∀ x ∈ (chunkEvalLoop wEval wChunks 0 none []).2,
          confidence_order r.confidence ≤ confidence_order x.confidence)
      ∧ r.supports_proposition = false
      ∧ chunked_fallback wEval wChunks =
          { r with reasoning :=
              "[Evaluated in " ++ toString wChunks.length ++ " chunks] "
                ++ r.reasoning } :=
  chunked_fallback_best_negative wEval wChunks
    (by
      intro k hk r h
      cases k with
      | zero =>
        simp only [wEval, wChunks] at h
        cases h
        rfl
      | succ k =>
        simp only [wEval, wChunks] at h
        cases h
        rfl)
    (by decide)

/-! ## Complaint evaluation orchestrator (src/evaluation.py, evaluate_complaint) -/

/-- Python truthiness of the Optional[bool] validity field: None and False
are falsy. -/
def pyTruthyBool : Option Bool → Bool
  | none => false
  | some b => b

/-- An extracted citation with its claimed proposition (src/citations.py
CitationWithProposition). -/
structure ExtractedCitation where
  raw_text : String
  citation_type : String
  proposition : String
deriving DecidableEq

/-- Full evaluation of a single citation (src/evaluation.py
CitationEvaluation). -/
structure CitationEvaluation where
  raw_text : String
  citation_type : String
  proposition : String
  is_valid : Option Bool := none
  courtlistener_id : Option String := none
  case_name : Option String := none
  validation_error : Option String := none
  supports_proposition : Option Bool := none
  support_confidence : Option String := none
  support_reasoning : Option String := none
  relevant_excerpt : Option String := none
deriving DecidableEq

/-- Aggregate evaluation record for one complaint (src/evaluation.py
ComplaintEvaluation).  The source filename and sidecar metadata fields
(scenario id, category, model), copied verbatim from the inputs, are
omitted.  citations is the Python dict from disambiguated key to
per-citation evaluation, modeled as the list of its bindings in insertion
order. -/
structure ComplaintEvaluation where
  total_citations : Nat := 0
  case_citations : Nat := 0
  statute_citations : Nat := 0
  valid_citations : Nat := 0
  invalid_citations : Nat := 0
  supported_propositions : Nat := 0
  unsupported_propositions : Nat := 0
  citations : List (String × CitationEvaluation) := []
deriving DecidableEq

/-- The key-disambiguation while loop of evaluate_complaint
(src/evaluation.py lines 342 to 347), after the initial key raw_text was
found taken: try "raw (counter)" with counter = 1, 2, ... until the key is
not in the mapping.  fuel bounds the iterations; the caller budgets
keys.length + 1, and the candidates are pairwise distinct, so exhaustion
(returning none) is unreachable in the source semantics. -/
def freshKeyAux (keys : List String) (raw_text : String) : Nat → Nat → Option String
  | _, 0 => none
  | counter, fuel + 1 =>
    let key := raw_text ++ " (" ++ toString counter ++ ")"
    if key ∈ keys then freshKeyAux keys raw_text (counter + 1) fuel else some key

/-- The full key-disambiguation loop: the raw text itself when free,
otherwise the first free suffixed candidate. -/
def freshKey (keys : List String) (raw_text : String) : Option String :=
  if raw_text ∈ keys then freshKeyAux keys raw_text 1 (keys.length + 1)
  else some raw_text

/-- State threaded through the citation loop of evaluate_complaint: the
record under construction and the validator cache. -/
structure EvalState where
  ev : ComplaintEvaluation
  cache : CitationCacheMap
deriving DecidableEq

/-- One iteration of the citation loop of evaluate_complaint
(src/evaluation.py lines 290 to 348) on the i-th extracted citation:
statutes are counted and left unvalidated; case citations are validated via
validate_citation on a fresh Citation holding only the raw text, counted as
valid or invalid, and, when valid with Python-truthy opinion text, the
support verdict of the i-th evaluate_proposition_support call (the oracle
support i) is folded in; finally the evaluation is inserted under the
disambiguated key.  The while loop of the source exits only with a key not
in the mapping, so the insertion appends a new binding; none is returned
only on key fuel exhaustion, which no reachable state produces. -/
def processCitation (lookup : String → Option Cluster)
    (support : Nat → PropositionSupportResult) (i : Nat) (st : EvalState)
    (cit : ExtractedCitation) : Option EvalState :=
  let cit_eval0 : CitationEvaluation :=
    { raw_text := cit.raw_text, citation_type := cit.citation_type,
      proposition := cit.proposition }
  -- The statute/case branch below updates only the count fields of the
  -- record, never the citations mapping, so the key loop of the source
  -- (which runs after it) reads exactly this mapping; the key is computed
  -- here once.
  match freshKey (st.ev.citations.map Prod.fst) cit.raw_text with
  | none => none
  | some key =>
    let branch : ComplaintEvaluation × CitationCacheMap × CitationEvaluation :=
      if cit.citation_type == "statute" then
        ({ st.ev with statute_citations := st.ev.statute_citations + 1 },
          st.cache, cit_eval0)
      else
        let v := validate_citation lookup st.cache { raw_text := cit.raw_text }
        let ev1 := { st.ev with case_citations := st.ev.case_citations + 1 }
        let ce1 := { cit_eval0 with
          is_valid := v.citation.is_valid
          courtlistener_id := v.citation.courtlistener_id
          case_name := v.citation.case_name
          validation_error := v.citation.validation_error }
        if pyTruthyBool v.citation.is_valid then
          let ev2 := { ev1 with valid_citations := ev1.valid_citations + 1 }
          if pyTruthy v.citation.opinion_text then
            let r := support i
            let ce2 := { ce1 with
              supports_proposition := some r.supports_proposition
              support_confidence := some r.confidence
              support_reasoning := some r.reasoning
              relevant_excerpt := r.relevant_excerpt }
            if r.supports_proposition then
              ({ ev2 with supported_propositions := ev2.supported_propositions + 1 },
                v.cache, ce2)
            else
              ({ ev2 with unsupported_propositions := ev2.unsupported_propositions + 1 },
                v.cache, ce2)
          else (ev2, v.cache, ce1)
        else
          ({ ev1 with invalid_citations := ev1.invalid_citations + 1 }, v.cache, ce1)
    some { ev := { branch.1 with citations := branch.1.citations ++ [(key, branch.2.2)] }
           cache := branch.2.1 }

/-- The citation loop of evaluate_complaint over the remaining citations,
carrying the index of the next citation. -/
def evalLoop (lookup : String → Option Cluster)
    (support : Nat → PropositionSupportResult) :
    List ExtractedCitation → Nat → EvalState → Option EvalState
  | [], _, st => some st
  | cit :: rest, i, st =>
    match processCitation lookup support i st cit with
    | none => none
    | some st2 => evalLoop lookup support rest (i + 1) st2

/-- The evaluation state evaluate_complaint starts from: total_citations is
set to the number of extracted citations before the loop, every other count
is zero and the mapping is empty. -/
def initState (cits : List ExtractedCitation) (cache : CitationCacheMap) : EvalState :=
  ⟨{ total_citations := cits.length }, cache⟩

/-- Embedding of evaluate_complaint (src/evaluation.py lines 253 to 350).
The extraction step is modeled by passing the extracted citation list; file
reading, sidecar metadata and console printing are I/O and omitted.
Returns the evaluation record and the final validator cache. -/
def evaluate_complaint (lookup : String → Option Cluster)
    (support : Nat → PropositionSupportResult) (cache : CitationCacheMap)
    (cits : List ExtractedCitation) :
    Option (ComplaintEvaluation × CitationCacheMap) :=
  (evalLoop lookup support cits 0 (initState cits cache)).map
    (fun st => (st.ev, st.cache))

theorem processCitation_invariant (lookup : String → Option Cluster)
    (support : Nat → PropositionSupportResult) (i : Nat) (st : EvalState)
    (cit : ExtractedCitation) (st2 : EvalState)
    (h : processCitation lookup support i st cit = some st2) :
    st2.ev.total_citations = st.ev.total_citations
    ∧ st2.ev.case_citations + st2.ev.statute_citations
        = st.ev.case_citations + st.ev.statute_citations + 1
    ∧ st2.ev.valid_citations + st2.ev.invalid_citations + st.ev.case_citations
        = st.ev.valid_citations + st.ev.invalid_citations + st2.ev.case_citations
    ∧ st2.ev.supported_propositions + st2.ev.unsupported_propositions
          + st.ev.valid_citations
        ≤ st.ev.supported_propositions + st.ev.unsupported_propositions
          + st2.ev.valid_citations
    ∧ ∃ key entry, st2.ev.citations = st.ev.citations ++ [(key, entry)]
        ∧ freshKey (st.ev.citations.map Prod.fst) cit.raw_text = some key
        ∧ entry.raw_text = cit.raw_text
        ∧ entry.proposition = cit.proposition := by
  rw [processCitation] at h
  cases hfk : freshKey (st.ev.citations.map Prod.fst) cit.raw_text with
  | none => rw [hfk] at h; exact absurd h (by simp)
  | some key =>
    rw [hfk] at h
    simp only [Option.some.injEq] at h
    subst h
    split_ifs with h1 h2 h3 h4 <;>
      refine ⟨rfl, by (try simp); (try omega), by (try simp); (try omega),
        by (try simp); (try omega), key, _, rfl, rfl, rfl, rfl⟩

theorem evalLoop_invariant (lookup : String → Option Cluster)
    (support : Nat → PropositionSupportResult) :
    ∀ (cits : List ExtractedCitation) (i : Nat) (st st2 : EvalState),
      evalLoop lookup support cits i st = some st2 →
      st2.ev.total_citations = st.ev.total_citations
      ∧ st2.ev.case_citations + st2.ev.statute_citations
          = st.ev.case_citations + st.ev.statute_citations + cits.length
      ∧ st2.ev.valid_citations + st2.ev.invalid_citations + st.ev.case_citations
          = st.ev.valid_citations + st.ev.invalid_citations + st2.ev.case_citations
      ∧ st2.ev.supported_propositions + st2.ev.unsupported_propositions
            + st.ev.valid_citations
          ≤ st.ev.supported_propositions + st.ev.unsupported_propositions
            + st2.ev.valid_citations
      ∧ ∃ suffix, st2.ev.citations = st.ev.citations ++ suffix
          ∧ suffix.length = cits.length := by
  intro cits
  induction cits with
  | nil =>
    intro i st st2 h
    rw [evalLoop] at h
    simp only [Option.some.injEq] at h
    subst h
    exact ⟨rfl, by simp, rfl, Nat.le_refl _, [], by simp, rfl⟩
  | cons cit rest ih =>
    intro i st st2 h
    rw [evalLoop] at h
    cases hp : processCitation lookup support i st cit with
    | none => rw [hp] at h; exact absurd h (by simp)
    | some st1 =>
      rw [hp] at h
      obtain ⟨p1, p2, p3, p4, key, entry, pcit, -, -, -⟩ :=
        processCitation_invariant lookup support i st cit st1 hp
      obtain ⟨q1, q2, q3, q4, suffix, qcit, qlen⟩ := ih (i + 1) st1 st2 h
      simp only [List.length_cons]
      refine ⟨q1.trans p1, by omega, by omega, by omega,
        (key, entry) :: suffix, ?_, by simp [qlen]⟩
      rw [qcit, pcit, List.append_assoc]
      rfl

/-- C8: every ComplaintEvaluation produced by evaluate_complaint satisfies
valid_citations + invalid_citations ≤ case_citations ≤ total_citations, and
supported_propositions + unsupported_propositions ≤ valid_citations (support
is only counted for valid case citations whose opinion text was
retrieved). -/
theorem evaluate_complaint_invariants (lookup : String → Option Cluster)
    (support : Nat → PropositionSupportResult) (cache : CitationCacheMap)
    (cits : List ExtractedCitation) (ev : ComplaintEvaluation)
    (cache2 : CitationCacheMap)
    (h : evaluate_complaint lookup support cache cits = some (ev, cache2)) :
    ev.valid_citations + ev.invalid_citations ≤ ev.case_citations
    ∧ ev.case_citations ≤ ev.total_citations
    ∧ ev.supported_propositions + ev.unsupported_propositions
        ≤ ev.valid_citations := by
  rw [evaluate_complaint] at h
  obtain ⟨st, hst, hpair⟩ := Option.map_eq_some'.mp h
  obtain ⟨rfl, rfl⟩ : st.ev = ev ∧ st.cache = cache2 :=
    ⟨congrArg Prod.fst hpair, congrArg Prod.snd hpair⟩
  obtain ⟨h1, h2, h3, h4, -⟩ :=
    evalLoop_invariant lookup support cits 0 (initState cits cache) st hst
  simp only [initState] at h1 h2 h3 h4
  refine ⟨by omega, by omega, by omega⟩

/-- C10 (implicit): in every ComplaintEvaluation that evaluate_complaint
returns, two of the bounds the spec states are in fact exact equalities:
valid_citations + invalid_citations equals case_citations (every non-statute
citation receives a definite boolean validity, never remaining unknown), and
case_citations + statute_citations equals total_citations. -/
theorem evaluate_complaint_exact_counts (lookup : String → Option Cluster)
    (support : Nat → PropositionSupportResult) (cache : CitationCacheMap)
    (cits : List ExtractedCitation) (ev : ComplaintEvaluation)
    (cache2 : CitationCacheMap)
    (h : evaluate_complaint lookup support cache cits = some (ev, cache2)) :
    ev.valid_citations + ev.invalid_citations = ev.case_citations
    ∧ ev.case_citations + ev.statute_citations = ev.total_citations := by
  rw [evaluate_complaint] at h
  obtain ⟨st, hst, hpair⟩ := Option.map_eq_some'.mp h
  obtain ⟨rfl, rfl⟩ : st.ev = ev ∧ st.cache = cache2 :=
    ⟨congrArg Prod.fst hpair, congrArg Prod.snd hpair⟩
  obtain ⟨h1, h2, h3, h4, -⟩ :=
    evalLoop_invariant lookup support cits 0 (initState cits cache) st hst
  simp only [initState] at h1 h2 h3 h4
  refine ⟨by omega, by omega⟩


/-- Lookup oracle for the C8 witness: only "a" resolves, with opinion
text. -/
def wLookup : String → Option Cluster := fun raw =>
  if raw == "a" then some ⟨"7", some "A v. B", some "op"⟩ else none

/-- Support oracle for the C8 witness: every evaluation supports with high
confidence. -/
def wSupport : Nat → PropositionSupportResult := fun _ => ⟨true, "high", "ok", none⟩

/-- Citations for the C8 witness: a valid case, a statute, an invalid
case. -/
def wCits : List ExtractedCitation :=
  [⟨"a", "case", "p1"⟩, ⟨"s1", "statute", "p2"⟩, ⟨"b", "case", "p3"⟩]

/-- The evaluation record the C8 witness run produces. -/
def wEv : ComplaintEvaluation :=
  { total_citations := 3, case_citations := 2, statute_citations := 1,
    valid_citations := 1, invalid_citations := 1,
    supported_propositions := 1, unsupported_propositions := 0,
    citations :=
      [("a", { raw_text := "a", citation_type := "case", proposition := "p1",
               is_valid := some true, courtlistener_id := some "7",
               case_name := some "A v. B", supports_proposition := some true,
               support_confidence := some "high", support_reasoning := some "ok" }),
       ("s1", { raw_text := "s1", citation_type := "statute", proposition := "p2" }),
       ("b", { raw_text := "b", citation_type := "case", proposition := "p3",
               is_valid := some false,
               validation_error := some "Citation not found in CourtListener" })] }

/-- The validator cache the C8 witness run produces. -/
def wCache : CitationCacheMap :=
  [("b", { is_valid := false, error := some "Not found", raw_text := "b" }),
   ("a", { is_valid := true, courtlistener_id := some "7",
           case_name := some "A v. B", opinion_text := some "op", raw_text := "a" })]

/-- Witness for C8 on a three-citation complaint (valid case, statute,
invalid case). -/
theorem evaluate_complaint_invariants_witness :
    wEv.valid_citations + wEv.invalid_citations ≤ wEv.case_citations
    ∧ wEv.case_citations ≤ wEv.total_citations
    ∧ wEv.supported_propositions + wEv.unsupported_propositions
        ≤ wEv.valid_citations :=
  evaluate_complaint_invariants wLookup wSupport [] wCits wEv wCache (by decide)

/-- Citations for the C10 witness: a statute and an invalid case. -/
def wCits10 : List ExtractedCitation :=
  [⟨"s", "statute", "q1"⟩, ⟨"c", "case", "q2"⟩]

/-- The evaluation record the C10 witness run produces. -/
def wEv10 : ComplaintEvaluation :=
  { total_citations := 2, case_citations := 1, statute_citations := 1,
    valid_citations := 0, invalid_citations := 1,
    supported_propositions := 0, unsupported_propositions := 0,
    citations :=
      [("s", { raw_text := "s", citation_type := "statute", proposition := "q1" }),
       ("c", { raw_text := "c", citation_type := "case", proposition := "q2",
               is_valid := some false,
               validation_error := some "Citation not found in CourtListener" })] }

/-- Witness for C10 on a two-citation complaint (statute, invalid case). -/
theorem evaluate_complaint_exact_counts_witness :
    wEv10.valid_citations + wEv10.invalid_citations = wEv10.case_citations
    ∧ wEv10.case_citations + wEv10.statute_citations = wEv10.total_citations :=
  evaluate_complaint_exact_counts (fun _ => none) wSupport [] wCits10 wEv10
    [("c", { is_valid := false, error := some "Not found", raw_text := "c" })]
    (by decide)

theorem evalLoop_append (lookup : String → Option Cluster)
    (support : Nat → PropositionSupportResult) :
    ∀ (l1 l2 : List ExtractedCitation) (i : Nat) (st : EvalState),
      evalLoop lookup support (l1 ++ l2) i st
        = (evalLoop lookup support l1 i st).bind
            (fun st1 => evalLoop lookup support l2 (i + l1.length) st1) := by
  intro l1
  induction l1 with
  | nil =>
    intro l2 i st
    simp [evalLoop]
  | cons c rest ih =>
    intro l2 i st
    rw [List.cons_append, evalLoop, evalLoop]
    cases hp : processCitation lookup support i st c with
    | none => simp
    | some st1 =>
      simp only [ih]
      simp only [List.length_cons,
        show i + (rest.length + 1) = i + 1 + rest.length from by omega]

theorem freshKey_not_mem (keys : List String) (raw : String) (h : raw ∉ keys) :
    freshKey keys raw = some raw := by
  rw [freshKey, if_neg h]

theorem string_paren_one (s : String) :
    s ++ " (" ++ toString (1 : Nat) ++ ")" = s ++ " (1)" := by
  rw [String.append_assoc, String.append_assoc]
  congr 1

theorem freshKey_mem_one (keys : List String) (raw : String) (h1 : raw ∈ keys)
    (h2 : (raw ++ " (1)") ∉ keys) :
    freshKey keys raw = some (raw ++ " (1)") := by
  rw [freshKey, if_pos h1]
  simp only [freshKeyAux]
  rw [string_paren_one, if_neg h2]

/-- C9 (amended): when two citations with identical raw text X sit at
positions i < j of one document, the first occurrence gets the key X
provided X is not yet a key of the mapping built from the citations before
position i, and the second gets the key "X (1)" provided that key is not
yet in the mapping built from the citations before position j; both
evaluations are present, in position, under these two distinct keys.  (As
stated the claim promised the keys X and "X (1)" unconditionally; when
another citation already occupies one of those keys the counter skips
forward, see evaluate_complaint_dup_keys_counterexample.) -/
theorem evaluate_complaint_duplicate_keys (lookup : String → Option Cluster)
    (support : Nat → PropositionSupportResult) (cache : CitationCacheMap)
    (cits : List ExtractedCitation) (X : String) (i j : Nat)
    (ev : ComplaintEvaluation) (cache2 : CitationCacheMap) (sti stj : EvalState)
    (hij : i < j) (hj : j < cits.length) (hi : i < cits.length)
    (hrun : evaluate_complaint lookup support cache cits = some (ev, cache2))
    (hpre1 : evalLoop lookup support (cits.take i) 0 (initState cits cache) = some sti)
    (hpre2 : evalLoop lookup support (cits.take j) 0 (initState cits cache) = some stj)
    (hXi : (cits[i]).raw_text = X)
    (hXj : (cits[j]).raw_text = X)
    (hX1 : X ∉ sti.ev.citations.map Prod.fst)
    (hX2 : (X ++ " (1)") ∉ stj.ev.citations.map Prod.fst) :
    ev.citations.length = cits.length
    ∧ X ≠ X ++ " (1)"
    ∧ ∃ e1 e2, ev.citations[i]? = some (X, e1)
        ∧ ev.citations[j]? = some (X ++ " (1)", e2)
        ∧ e1.raw_text = X ∧ e1.proposition = (cits[i]).proposition
        ∧ e2.raw_text = X ∧ e2.proposition = (cits[j]).proposition := by
  -- unpack the full run
  rw [evaluate_complaint] at hrun
  obtain ⟨st, hst, hpair⟩ := Option.map_eq_some'.mp hrun
  obtain ⟨rfl, rfl⟩ : st.ev = ev ∧ st.cache = cache2 :=
    ⟨congrArg Prod.fst hpair, congrArg Prod.snd hpair⟩
  -- lengths of the prefix states
  have hleni : sti.ev.citations.length = i := by
    obtain ⟨-, -, -, -, suffix, hsuf, hlen⟩ :=
      evalLoop_invariant lookup support (cits.take i) 0 (initState cits cache) sti hpre1
    simp only [initState] at hsuf
    rw [hsuf]
    simp [hlen, List.length_take]
    omega
  have hlenj : stj.ev.citations.length = j := by
    obtain ⟨-, -, -, -, suffix, hsuf, hlen⟩ :=
      evalLoop_invariant lookup support (cits.take j) 0 (initState cits cache) stj hpre2
    simp only [initState] at hsuf
    rw [hsuf]
    simp [hlen, List.length_take]
    omega
  -- split the run of (take j) at position i
  have htakei : (cits.take j).take i = cits.take i := by
    rw [List.take_take, Nat.min_eq_left hij.le]
  have hdropi : (cits.take j).drop i = cits[i] :: (cits.take j).drop (i + 1) := by
    rw [List.drop_eq_getElem_cons (by simp [List.length_take]; omega)]
    congr 1
    exact List.getElem_take cits
  have hsplitj := evalLoop_append lookup support ((cits.take j).take i)
    ((cits.take j).drop i) 0 (initState cits cache)
  rw [List.take_append_drop, htakei, hpre1] at hsplitj
  rw [hpre2] at hsplitj
  rw [hdropi] at hsplitj
  simp only [Option.some_bind', List.length_take, Nat.zero_add] at hsplitj
  rw [evalLoop] at hsplitj
  have hminij : min i cits.length = i := Nat.min_eq_left hi.le
  rw [hminij] at hsplitj
  cases hpi : processCitation lookup support i sti (cits[i]) with
  | none => rw [hpi] at hsplitj; exact absurd hsplitj.symm (by simp)
  | some sti1 =>
    rw [hpi] at hsplitj
    -- the step at i appends the binding (X, e1)
    obtain ⟨-, -, -, -, key1, e1, hcit1, hfk1, hraw1, hprop1⟩ :=
      processCitation_invariant lookup support i sti (cits[i]) sti1 hpi
    rw [hXi] at hfk1
    rw [freshKey_not_mem _ _ hX1] at hfk1
    obtain rfl : X = key1 := by simpa using hfk1
    -- the state after j-prefix extends the state after the step at i
    obtain ⟨-, -, -, -, suffixB, hsufB, -⟩ :=
      evalLoop_invariant lookup support ((cits.take j).drop (i + 1)) (i + 1) sti1 stj
        hsplitj.symm
    -- X is a key of stj
    have hXinj : X ∈ stj.ev.citations.map Prod.fst := by
      rw [hsufB, hcit1]
      simp
    -- split the full run at position j
    have hdropj : cits.drop j = cits[j] :: cits.drop (j + 1) :=
      List.drop_eq_getElem_cons hj
    have hsplitf := evalLoop_append lookup support (cits.take j) (cits.drop j) 0
      (initState cits cache)
    rw [List.take_append_drop, hpre2, hst] at hsplitf
    rw [hdropj] at hsplitf
    simp only [Option.some_bind', List.length_take, Nat.zero_add] at hsplitf
    have hminj : min j cits.length = j := Nat.min_eq_left hj.le
    rw [hminj] at hsplitf
    rw [evalLoop] at hsplitf
    cases hpj : processCitation lookup support j stj (cits[j]) with
    | none => rw [hpj] at hsplitf; exact absurd hsplitf.symm (by simp)
    | some stj1 =>
      rw [hpj] at hsplitf
      obtain ⟨-, -, -, -, key2, e2, hcit2, hfk2, hraw2, hprop2⟩ :=
        processCitation_invariant lookup support j stj (cits[j]) stj1 hpj
      rw [hXj] at hfk2
      rw [freshKey_mem_one _ _ hXinj hX2] at hfk2
      obtain rfl : X ++ " (1)" = key2 := by simpa using hfk2
      -- the final state extends the state after the step at j
      obtain ⟨-, -, -, -, suffixC, hsufC, -⟩ :=
        evalLoop_invariant lookup support (cits.drop (j + 1)) (j + 1) stj1 st
          hsplitf.symm
      -- total length
      have hlen : st.ev.citations.length = cits.length := by
        obtain ⟨-, -, -, -, suffix, hsuf, hslen⟩ :=
          evalLoop_invariant lookup support cits 0 (initState cits cache) st hst
        simp only [initState] at hsuf
        rw [hsuf]
        simpa using hslen
      have hne : X ≠ X ++ " (1)" := by
        intro he
        have hle := congrArg String.length he
        rw [String.length_append] at hle
        have h4 : (" (1)" : String).length = 4 := rfl
        omega
      refine ⟨hlen, hne, e1, e2, ?_, ?_, hraw1.trans hXi, hprop1, hraw2.trans hXj, hprop2⟩
      · -- position i
        rw [hsufC, hcit2, hsufB, hcit1]
        rw [List.append_assoc (sti.ev.citations ++ [(X, e1)]),
          List.append_assoc (sti.ev.citations ++ [(X, e1)]),
          List.getElem?_append_left (by simp [hleni]),
          List.getElem?_append_right (by simp [hleni])]
        simp [hleni]
      · -- position j
        rw [hsufC, hcit2,
          List.getElem?_append_left (by simp [hlenj]),
          List.getElem?_append_right (by simp [hlenj])]
        simp [hlenj]

/-- Citations of the C9 counterexample: a statute whose raw text is
"X (1)", then two statutes with identical raw text "X". -/
def cexCits : List ExtractedCitation :=
  [⟨"X (1)", "statute", "p1"⟩, ⟨"X", "statute", "p2"⟩, ⟨"X", "statute", "p3"⟩]

/-- The evaluation record the C9 counterexample run produces. -/
def cexEv : ComplaintEvaluation :=
  { total_citations := 3, statute_citations := 3,
    citations :=
      [("X (1)", { raw_text := "X (1)", citation_type := "statute",
                   proposition := "p1" }),
       ("X", { raw_text := "X", citation_type := "statute", proposition := "p2" }),
       ("X (2)", { raw_text := "X", citation_type := "statute",
                   proposition := "p3" })] }

/-- Counterexample for C9 as stated: with citations of raw texts "X (1)",
"X", "X" in one document, the second occurrence of "X" is keyed "X (2)",
not "X (1)" (that key is already taken by the first citation, whose raw
text happens to be "X (1)"), so the claim that the second duplicate always
sits under the raw text followed by " (1)" is false: no binding with key
"X (1)" holds the second duplicate evaluation. -/
theorem evaluate_complaint_dup_keys_counterexample :
    evaluate_complaint (fun _ => none) (fun _ => ⟨false, "low", "", none⟩) [] cexCits
      = some (cexEv, [])
    ∧ cexEv.citations.map Prod.fst = ["X (1)", "X", "X (2)"]
    ∧ ¬ ∃ p, p ∈ cexEv.citations ∧ p.1 = "X (1)" ∧ p.2.proposition = "p3" := by
  refine ⟨by decide, by decide, by decide⟩

/-- Citations of the C9 witness: two statutes with identical raw text. -/
def wCits9 : List ExtractedCitation :=
  [⟨"x", "statute", "p1"⟩, ⟨"x", "statute", "p2"⟩]

/-- The state after the first citation of the C9 witness document. -/
def wStj9 : EvalState :=
  ⟨{ total_citations := 2, statute_citations := 1,
     citations := [("x", { raw_text := "x", citation_type := "statute",
                           proposition := "p1" })] }, []⟩

/-- The evaluation record of the C9 witness run. -/
def wEv9 : ComplaintEvaluation :=
  { total_citations := 2, statute_citations := 2,
    citations :=
      [("x", { raw_text := "x", citation_type := "statute", proposition := "p1" }),
       ("x (1)", { raw_text := "x", citation_type := "statute",
                   proposition := "p2" })] }

/-- Witness for C9 (amended): two citations with raw text "x" and no other
key interference produce the keys "x" and "x (1)" in position. -/
theorem evaluate_complaint_duplicate_keys_witness :
    wEv9.citations.length = wCits9.length
    ∧ "x" ≠ "x" ++ " (1)"
    ∧ ∃ e1 e2, wEv9.citations[0]? = some ("x", e1)
        ∧ wEv9.citations[1]? = some ("x" ++ " (1)", e2)
        ∧ e1.raw_text = "x" ∧ e1.proposition = "p1"
        ∧ e2.raw_text = "x" ∧ e2.proposition = "p2" :=
  evaluate_complaint_duplicate_keys (fun _ => none)
    (fun _ => ⟨false, "low", "", none⟩) [] wCits9 "x" 0 1 wEv9 []
    (initState wCits9 []) wStj9 (by decide) (by decide) (by decide)
    (by decide) rfl (by decide) rfl rfl (by decide) (by decide)
